import Mathlib

/-!
Verification of the normalization and analysis core of the auto-api-hooks
repository: the IR data model, the pagination-strategy detector
(src/ir/helpers.ts), the circular-type analyzer (zod emitter), the naming
utilities (utils/naming.ts), the allOf merger and scalar mapping of the
three parsers, and the parser-dispatch error path (parsers/index.ts).

Every definition is a shallow embedding translated from the TypeScript
source.  JS `Set` values are modelled as insertion-ordered duplicate-free
lists, JS `Map` registries as association lists (the parsers build them
with distinct keys), and JS objects as association lists of fields.
Machine details that the claims do not touch (Unicode case folding beyond
ASCII, float enum values) are modelled at the ASCII / integer level.
-/

set_option maxRecDepth 10000

-- ===========================================================================
-- §1  IR data model (src/ir/types.ts)
-- ===========================================================================

/-- The six primitive kinds of `ApiPrimitiveType.type`. -/
inductive PrimKind where
  | string | number | integer | boolean | null | unknown
deriving DecidableEq, Repr

/-- `string | number` enum values. Numbers modelled as `Int`. -/
inductive EnumValue where
  | str (s : String)
  | num (n : Int)
deriving DecidableEq, Repr

mutual

/-- The tagged `ApiType` variant of the IR (six cases). -/
inductive ApiType : Type where
  | primitive (ptype : PrimKind) (format : Option String) (description : Option String)
  | object (oname : Option String) (properties : List ApiProperty)
      (additionalProperties : Option ApiAdditional) (description : Option String)
  | array (items : ApiType) (description : Option String)
  | enumType (ename : Option String) (values : List EnumValue) (description : Option String)
  | union (variants : List ApiType) (description : Option String)
  | ref (rname : String)

/-- One object property: `{name, type, required, description?}`. -/
inductive ApiProperty : Type where
  | mk (name : String) (type : ApiType) (required : Bool) (description : Option String)

/-- `additionalProperties?: ApiType | boolean`. -/
inductive ApiAdditional : Type where
  | ofBool (b : Bool)
  | ofType (t : ApiType)

end

def ApiProperty.name : ApiProperty → String
  | .mk n _ _ _ => n

def ApiProperty.type : ApiProperty → ApiType
  | .mk _ t _ _ => t

def ApiProperty.required : ApiProperty → Bool
  | .mk _ _ r _ => r

/-- HTTP methods plus the three GraphQL operation kinds (`OperationMethod`). -/
inductive OperationMethod where
  | GET | POST | PUT | DELETE | PATCH | HEAD | OPTIONS
  | QUERY | MUTATION | SUBSCRIPTION
deriving DecidableEq, Repr

/-- Parameter location (`in`). -/
inductive ParamLocation where
  | path | query | header
deriving DecidableEq, Repr

/-- `ApiParam`. -/
structure ApiParam where
  name : String
  required : Bool
  type : ApiType
  description : Option String := none
  location : ParamLocation

/-- `statusCode: number | 'default'`. -/
inductive StatusCode where
  | num (n : Nat)
  | defaultCase
deriving DecidableEq, Repr

/-- `ApiResponse`. -/
structure ApiResponse where
  statusCode : StatusCode
  contentType : String
  type : ApiType
  description : Option String := none

/-- `ApiRequestBody`. -/
structure ApiRequestBody where
  required : Bool
  contentType : String
  type : ApiType
  description : Option String := none

/-- `PaginationStrategy`. -/
inductive PaginationStrategy where
  | cursor | offsetLimit | pageNumber
deriving DecidableEq, Repr

/-- `PaginationInfo`. -/
structure PaginationInfo where
  strategy : PaginationStrategy
  pageParam : String
  nextPagePath : List String
  itemsPath : List String
deriving DecidableEq, Repr

/-- `ApiOperation`. -/
structure ApiOperation where
  operationId : String
  summary : Option String := none
  method : OperationMethod
  path : String
  tags : List String
  pathParams : List ApiParam
  queryParams : List ApiParam
  headerParams : List ApiParam
  requestBody : Option ApiRequestBody := none
  response : ApiResponse
  pagination : Option PaginationInfo := none
  deprecated : Bool

/-- `ApiSpec`; the named-type registry `Map<string, ApiType>` is modelled as
an insertion-ordered association list with distinct keys. -/
structure ApiSpec where
  title : String
  baseUrl : String
  version : String
  operations : List ApiOperation
  types : List (String × ApiType)

-- ===========================================================================
-- §2  Pagination detection (src/ir/helpers.ts)
-- ===========================================================================

/-- `CURSOR_PARAM_NAMES`, in declared (insertion) order. -/
def CURSOR_PARAM_NAMES : List String :=
  ["cursor", "after", "before", "page_token", "pageToken", "next_token",
   "nextToken", "starting_after", "startingAfter", "ending_before", "endingBefore"]

/-- `OFFSET_PARAM_NAMES`. -/
def OFFSET_PARAM_NAMES : List String := ["offset", "skip"]

/-- `LIMIT_PARAM_NAMES`. -/
def LIMIT_PARAM_NAMES : List String :=
  ["limit", "count", "size", "per_page", "perPage", "page_size", "pageSize"]

/-- `PAGE_NUMBER_PARAM_NAMES`. -/
def PAGE_NUMBER_PARAM_NAMES : List String := ["page", "page_number", "pageNumber", "p"]

/-- `CURSOR_RESPONSE_FIELDS`. -/
def CURSOR_RESPONSE_FIELDS : List String :=
  ["next_cursor", "nextCursor", "cursor", "next_page_token", "nextPageToken",
   "next_token", "nextToken", "endCursor", "end_cursor", "has_more", "hasMore"]

/-- `ITEMS_FIELDS`. -/
def ITEMS_FIELDS : List String :=
  ["items", "data", "results", "records", "edges", "nodes", "entries",
   "list", "rows", "content", "hits"]

/-- `PAGE_COUNT_FIELDS` (local constant of `findPageCountPath`). -/
def PAGE_COUNT_FIELDS : List String :=
  ["total_pages", "totalPages", "total_count", "totalCount",
   "total", "page_count", "pageCount", "last_page", "lastPage"]

def ApiType.isArray : ApiType → Bool
  | .array _ _ => true
  | _ => false

/-- `findItemsPath`: first direct property whose name is in `ITEMS_FIELDS`
and whose type is an array. -/
def findItemsPath (t : ApiType) : Option (List String) :=
  match t with
  | .object _ props _ _ =>
      props.findSome? fun p =>
        if ITEMS_FIELDS.contains p.name ∧ p.type.isArray then some [p.name] else none
  | _ => none

/-- Nested-object scan used by `findNextPagePath` for one outer property. -/
def nextPageStep (p : ApiProperty) : Option (List String) :=
  if CURSOR_RESPONSE_FIELDS.contains p.name then some [p.name]
  else if (p.name = "pagination" ∨ p.name = "meta" ∨ p.name = "page_info" ∨ p.name = "pageInfo") then
    match p.type with
    | .object _ nested _ _ =>
        nested.findSome? fun q =>
          if CURSOR_RESPONSE_FIELDS.contains q.name then some [p.name, q.name] else none
    | _ => none
  else none

/-- `findNextPagePath`. -/
def findNextPagePath (t : ApiType) : Option (List String) :=
  match t with
  | .object _ props _ _ => props.findSome? nextPageStep
  | _ => none

/-- Nested-object scan used by `findPageCountPath` for one outer property. -/
def pageCountStep (p : ApiProperty) : Option (List String) :=
  if PAGE_COUNT_FIELDS.contains p.name then some [p.name]
  else if (p.name = "pagination" ∨ p.name = "meta") then
    match p.type with
    | .object _ nested _ _ =>
        nested.findSome? fun q =>
          if PAGE_COUNT_FIELDS.contains q.name then some [p.name, q.name] else none
    | _ => none
  else none

/-- `findPageCountPath`. -/
def findPageCountPath (t : ApiType) : Option (List String) :=
  match t with
  | .object _ props _ _ => props.findSome? pageCountStep
  | _ => none

/-- Query-parameter name set of an operation (membership queries only). -/
def queryParamNames (op : ApiOperation) : List String :=
  op.queryParams.map ApiParam.name

/-- `detectPagination`: fixed strategy priority, first match wins.
The sets are iterated in declared order, so the first present name of
each fixed set is taken (`List.find?`). -/
def detectPagination (op : ApiOperation) : Option PaginationInfo :=
  let qn := queryParamNames op
  let responseType := op.response.type
  -- Strategy 1: cursor-based
  match CURSOR_PARAM_NAMES.find? (fun n => qn.contains n) with
  | some name =>
      some { strategy := .cursor
             pageParam := name
             nextPagePath := (findNextPagePath responseType).getD [name]
             itemsPath := (findItemsPath responseType).getD [] }
  | none =>
  -- Strategy 2: offset/limit (returns only when some limit name is present)
  match OFFSET_PARAM_NAMES.find? (fun n => qn.contains n) with
  | some offsetName =>
      if LIMIT_PARAM_NAMES.any (fun n => qn.contains n) then
        some { strategy := .offsetLimit
               pageParam := offsetName
               nextPagePath := [offsetName]
               itemsPath := (findItemsPath responseType).getD [] }
      else
        detectPaginationAfterOffset op
  | none => detectPaginationAfterOffset op
where
  /-- Strategies 3 (page-number) and 4 (shape-only fallback). -/
  detectPaginationAfterOffset (op : ApiOperation) : Option PaginationInfo :=
    let qn := queryParamNames op
    let responseType := op.response.type
    match PAGE_NUMBER_PARAM_NAMES.find? (fun n => qn.contains n) with
    | some pageName =>
        some { strategy := .pageNumber
               pageParam := pageName
               nextPagePath := (findPageCountPath responseType).getD [pageName]
               itemsPath := (findItemsPath responseType).getD [] }
    | none =>
        match responseType with
        | .object _ _ _ _ =>
            match findNextPagePath responseType, findItemsPath responseType with
            | some cursorPath, some items =>
                match CURSOR_PARAM_NAMES.find? (fun n => qn.contains n) <|>
                      PAGE_NUMBER_PARAM_NAMES.find? (fun n => qn.contains n) with
                | some likelyCursorParam =>
                    some { strategy := .cursor
                           pageParam := likelyCursorParam
                           nextPagePath := cursorPath
                           itemsPath := items }
                | none => none
            | _, _ => none
        | _ => none

/-- Per-operation step of `applyPaginationDetection`. -/
def applyPaginationToOp (op : ApiOperation) : ApiOperation :=
  if op.method ≠ .GET ∧ op.method ≠ .QUERY then op
  else if op.pagination.isSome then op
  else
    match detectPagination op with
    | some pg => { op with pagination := some pg }
    | none => op

/-- `applyPaginationDetection`. -/
def applyPaginationDetection (spec : ApiSpec) : ApiSpec :=
  { spec with operations := spec.operations.map applyPaginationToOp }

-- ===========================================================================
-- §3  Naming utilities (src/utils/naming.ts)
-- ===========================================================================

/-- `String.startsWith`, via character lists (kernel-computable). -/
def jsStartsWith (s pre : String) : Bool := pre.data.isPrefixOf s.data

/-- JS `String.prototype.split` with a one-character separator. -/
def splitChar (sep : Char) : List Char → List (List Char)
  | [] => [[]]
  | c :: rest =>
    if c == sep then [] :: splitChar sep rest
    else
      match splitChar sep rest with
      | [] => [[c]]
      | g :: gs => (c :: g) :: gs

/-- JS `path.split(sep)` as strings. -/
def jsSplit (sep : Char) (s : String) : List String :=
  (splitChar sep s.data).map (fun l => ⟨l⟩)

/-- `String.toLowerCase`, at the ASCII level. -/
def jsToLower (s : String) : String := ⟨s.data.map Char.toLower⟩

/-- `String.prototype.slice(0, n)`. -/
def jsTake (s : String) (n : Nat) : String := ⟨s.data.take n⟩

/-- The character class `[a-zA-Z0-9]`. -/
def isAlnumChar (c : Char) : Bool :=
  ('a' ≤ c && c ≤ 'z') || ('A' ≤ c && c ≤ 'Z') || ('0' ≤ c && c ≤ '9')

/-- Global replace of `[^a-zA-Z0-9]+(.)` by the upper-cased captured
character, as a left-to-right scan.  The state records whether the scan is
inside a maximal non-alphanumeric run (with the run's last character so
far, and whether the run already has two or more characters).  An
alphanumeric character ending a run is the regex capture and is
upper-cased; a run that reaches the end of the string backtracks so that
its own last character is the capture (possible only when the run has at
least two characters), while a single trailing non-alphanumeric character
cannot match `+(.)` and is kept.  Case conversion is modelled at the
ASCII level (`Char.toUpper`). -/
def pascalReplace1Aux : Option (Char × Bool) → List Char → List Char
  | none, [] => []
  | some (c, ge2), [] => if ge2 then [c.toUpper] else [c]
  | none, c :: rest =>
      if isAlnumChar c then c :: pascalReplace1Aux none rest
      else pascalReplace1Aux (some (c, false)) rest
  | some _, c :: rest =>
      if isAlnumChar c then c.toUpper :: pascalReplace1Aux none rest
      else pascalReplace1Aux (some (c, true)) rest

def pascalReplace1 (l : List Char) : List Char := pascalReplace1Aux none l

/-- Replace of `^[a-z]` by its upper case. -/
def pascalReplace2 : List Char → List Char
  | [] => []
  | c :: rest => if 'a' ≤ c && c ≤ 'z' then c.toUpper :: rest else c :: rest

/-- Global removal of `[^a-zA-Z0-9]`. -/
def pascalReplace3 (l : List Char) : List Char := l.filter isAlnumChar

/-- `toPascalCase`. -/
def toPascalCase (s : String) : String :=
  ⟨pascalReplace3 (pascalReplace2 (pascalReplace1 s.data))⟩

/-- `toCamelCase`.  `pascal[0]` of the empty string is `undefined`, and
`undefined.toLowerCase()` throws a TypeError, modelled as `none`. -/
def toCamelCase (s : String) : Option String :=
  match (toPascalCase s).data with
  | [] => none
  | c :: rest => some ⟨c.toLower :: rest⟩

/-- The regex `/^(api|v\d+)$/i`. -/
def isApiOrVersionSegment (s : String) : Bool :=
  let l := jsToLower s
  l == "api" ||
    (match l.data with
     | 'v' :: rest => !rest.isEmpty && rest.all Char.isDigit
     | _ => false)

/-- `extractResource`.  The JS `a || b || 'unknown'` chain is an
`Option.getD` chain because filtered segments are never the empty string. -/
def extractResource (path : String) : String :=
  let segments := (jsSplit '/' path).filter (fun s => !(s == "") && !(jsStartsWith s "\x7b"))
  let meaningful := segments.filter (fun s => !isApiOrVersionSegment s)
  (meaningful.getLast?).getD ((segments.getLast?).getD "unknown")

-- ===========================================================================
-- §4  Circular-type detection (zod emitter)
-- ===========================================================================

mutual

/-- Reference names collected by `collectRefs`, in traversal order and
before `Set` deduplication. -/
def collectRefsT : ApiType → List String
  | .ref n => [n]
  | .object _ props addl _ =>
      collectRefsProps props ++
      (match addl with
       | some (.ofType t) => collectRefsT t
       | _ => [])
  | .array items _ => collectRefsT items
  | .union vs _ => collectRefsUnion vs
  | .primitive _ _ _ => []
  | .enumType _ _ _ => []

def collectRefsProps : List ApiProperty → List String
  | [] => []
  | .mk _ t _ _ :: rest => collectRefsT t ++ collectRefsProps rest

def collectRefsUnion : List ApiType → List String
  | [] => []
  | t :: rest => collectRefsT t ++ collectRefsUnion rest

end

/-- `Set.add`: append if absent (JS insertion order). -/
def addUnique (l : List String) (x : String) : List String :=
  if l.contains x then l else l ++ [x]

/-- A JS `Set` built from a list: first-occurrence order, no duplicates. -/
def dedupList (l : List String) : List String := l.foldl addUnique []

/-- `collectRefs` into a `Set`. -/
def collectRefs (t : ApiType) : List String := dedupList (collectRefsT t)

/-- The dependency map `deps` of `detectCircularTypes`:
`deps.get(name) ?? []`. -/
def depsOf (types : List (String × ApiType)) (n : String) : List String :=
  match types.lookup n with
  | some t => collectRefs t
  | none => []

/-- The three mutable sets of `detectCircularTypes`'s DFS. -/
structure DfsSt where
  circular : List String
  visited : List String
  inStack : List String

/-- `path.indexOf(name)`; `l.length` when absent (in the code this case is
unreachable from `detectCircularTypes`: `inStack` always holds exactly the
elements of the current `path`). -/
def listIndexOf (l : List String) (x : String) : Nat :=
  (l.findIdx? (fun y => y == x)).getD l.length

/-- The cycle-marking loop: add `path[i]` for `i` from `path.indexOf(name)`
to the end of the path. -/
def markCycle (path : List String) (name : String) (circular : List String) : List String :=
  (path.drop (listIndexOf path name)).foldl addUnique circular

/-- The inner `dfs(name, path)` of `detectCircularTypes`, with the mutable
sets threaded and recursion depth bounded by fuel. -/
def dfsCirc (types : List (String × ApiType)) :
    Nat → String → List String → DfsSt → DfsSt
  | 0, _, _, st => st
  | Nat.succ fuel, name, path, st =>
    if st.inStack.contains name then
      { st with circular := markCycle path name st.circular }
    else if st.visited.contains name then st
    else
      let st1 : DfsSt :=
        { st with visited := addUnique st.visited name
                  inStack := addUnique st.inStack name }
      let path1 := path ++ [name]
      let st2 := (depsOf types name).foldl
        (fun acc dep =>
          if (types.map Prod.fst).contains dep then dfsCirc types fuel dep path1 acc
          else acc)
        st1
      { st2 with inStack := st2.inStack.erase name }

/-- `detectCircularTypes`: run the DFS from every key of the registry.
`types.length + 1` fuel bounds the recursion depth: every frame that
recurses first adds an unvisited key to `visited`. -/
def detectCircularTypes (types : List (String × ApiType)) : List String :=
  ((types.map Prod.fst).foldl
    (fun acc name => dfsCirc types (types.length + 1) name [] acc)
    ⟨[], [], []⟩).circular

/-- One reference step of the named-type graph: `b` is a collected
reference of `a`'s registered type. -/
def refStep (types : List (String × ApiType)) (a b : String) : Prop :=
  b ∈ depsOf types a

instance (types : List (String × ApiType)) (a b : String) :
    Decidable (refStep types a b) := by
  unfold refStep; infer_instance

/-- A name participates in a reference cycle: it reaches itself in one or
more `refStep`s. -/
def onRefCycle (types : List (String × ApiType)) (a : String) : Prop :=
  Relation.TransGen (refStep types) a a

-- ===========================================================================
-- §5  OpenAPI schema conversion (src/parsers/openapi-parser.ts)
-- ===========================================================================

mutual

/-- A dereferenced JSON-Schema node, with the fields the converter reads.
`$ref` remnants are absent after dereferencing, so the converter's
`isRef` filters are the identity here. -/
inductive JSchema : Type where
  | mk (stype : Option String) (properties : Option (List (String × JSchema)))
       (required : Option (List String)) (description : Option String)
       (enumVals : Option (List EnumValue)) (oneOf : Option (List JSchema))
       (anyOf : Option (List JSchema)) (allOf : Option (List JSchema))
       (items : Option JSchema) (additionalProperties : Option JAdditional)
       (format : Option String) (nullable : Option Bool) (title : Option String)

/-- `additionalProperties?: SchemaObject | boolean`. -/
inductive JAdditional : Type where
  | ofBool (b : Bool)
  | ofType (t : JSchema)

end

def JSchema.stype : JSchema → Option String
  | .mk t _ _ _ _ _ _ _ _ _ _ _ _ => t

def JSchema.properties : JSchema → Option (List (String × JSchema))
  | .mk _ p _ _ _ _ _ _ _ _ _ _ _ => p

def JSchema.required : JSchema → Option (List String)
  | .mk _ _ r _ _ _ _ _ _ _ _ _ _ => r

def JSchema.description : JSchema → Option String
  | .mk _ _ _ d _ _ _ _ _ _ _ _ _ => d

def JSchema.enumVals : JSchema → Option (List EnumValue)
  | .mk _ _ _ _ e _ _ _ _ _ _ _ _ => e

def JSchema.oneOf : JSchema → Option (List JSchema)
  | .mk _ _ _ _ _ o _ _ _ _ _ _ _ => o

def JSchema.anyOf : JSchema → Option (List JSchema)
  | .mk _ _ _ _ _ _ a _ _ _ _ _ _ => a

def JSchema.allOf : JSchema → Option (List JSchema)
  | .mk _ _ _ _ _ _ _ al _ _ _ _ _ => al

def JSchema.items : JSchema → Option JSchema
  | .mk _ _ _ _ _ _ _ _ i _ _ _ _ => i

def JSchema.additionalProperties : JSchema → Option JAdditional
  | .mk _ _ _ _ _ _ _ _ _ ad _ _ _ => ad

def JSchema.format : JSchema → Option String
  | .mk _ _ _ _ _ _ _ _ _ _ f _ _ => f

def JSchema.nullable : JSchema → Option Bool
  | .mk _ _ _ _ _ _ _ _ _ _ _ n _ => n

def JSchema.title : JSchema → Option String
  | .mk _ _ _ _ _ _ _ _ _ _ _ _ ti => ti

/-- `{ ...schema, nullable: undefined }`. -/
def JSchema.clearNullable : JSchema → JSchema
  | .mk t p r d e o a al i ad f _ ti => .mk t p r d e o a al i ad f none ti

/-- JS string truthiness: defined and non-empty. -/
def truthyStr : Option String → Bool
  | some d => d ≠ ""
  | none => false

/-- The JS guard `x && x.length > 0` on an optional array. -/
def nonEmptyList : Option (List α) → Option (List α)
  | some (a :: l) => some (a :: l)
  | _ => none

/-- JS truthiness of `schema.additionalProperties` (the boolean `false`
is falsy). -/
def truthyAddl : Option JAdditional → Bool
  | some (.ofBool b) => b
  | some (.ofType _) => true
  | none => false

/-- `hasObjectShape`: `!!(schema.properties || schema.additionalProperties)`. -/
def hasObjectShape (s : JSchema) : Bool :=
  s.properties.isSome || truthyAddl s.additionalProperties

/-- `Object.assign(base, extra)` on property records: existing keys are
overwritten in place, new keys are appended. -/
def objectAssignProps (base extra : List (String × JSchema)) : List (String × JSchema) :=
  extra.foldl
    (fun acc kv =>
      if (acc.map Prod.fst).contains kv.1 then
        acc.map (fun kv2 => if kv2.1 == kv.1 then (kv2.1, kv.2) else kv2)
      else acc ++ [kv])
    base

/-- One iteration of `mergeAllOf`'s loop body. -/
def mergeAllOfStep (merged s : JSchema) : JSchema :=
  match merged with
  | .mk mt mp mr md me mo ma mall mi maddl mf mn mtitle =>
    .mk mt
        (some (match s.properties with
               | some ps => objectAssignProps (mp.getD []) ps
               | none => mp.getD []))
        (some ((mr.getD []) ++ (s.required.getD [])))
        (if truthyStr s.description && !truthyStr md then s.description else md)
        me mo ma mall mi maddl mf mn mtitle

/-- `mergeAllOf`: fold the components into `{type:'object', properties:{},
required:[]}`.  (The identical helper also appears in the Swagger-2
normalizer.) -/
def mergeAllOf (schemas : List JSchema) : JSchema :=
  schemas.foldl mergeAllOfStep
    (.mk (some "object") (some []) (some []) none none none none none none none none none none)

/-- `if (schema.format) result.format = schema.format`. -/
def formatIfTruthy (f : Option String) : Option String :=
  if truthyStr f then f else none

mutual

/-- `convertSchema` (OpenAPI 3.x), with recursion depth bounded by fuel;
fuel is only consumed on recursive descent, so any sufficiently large
fuel computes the source function's value. -/
def convertJSchema : Nat → Option JSchema → ApiType
  | _, none => .primitive .unknown none none
  | 0, some _ => .primitive .unknown none none
  | Nat.succ fuel, some s =>
    match nonEmptyList s.oneOf with
    | some variants =>
        .union (convertManyJ fuel variants) s.description
    | none =>
    match nonEmptyList s.anyOf with
    | some variants =>
        .union (convertManyJ fuel variants) s.description
    | none =>
    match nonEmptyList s.allOf with
    | some comps =>
        let result := convertJSchema fuel (some (mergeAllOf comps))
        if truthyStr s.description then
          match result with
          | .object a b c _ => .object a b c s.description
          | r => r
        else result
    | none =>
    match nonEmptyList s.enumVals with
    | some vals => .enumType s.title vals s.description
    | none =>
    if s.stype == some "array" then
      .array (convertJSchema fuel s.items) s.description
    else if s.stype == some "object" || s.properties.isSome ||
            (!truthyStr s.stype && hasObjectShape s) then
      convertObjectSchemaJ fuel s
    else if s.stype == some "string" then
      .primitive .string (formatIfTruthy s.format) s.description
    else if s.stype == some "number" then
      .primitive .number (formatIfTruthy s.format) s.description
    else if s.stype == some "integer" then
      .primitive .integer (formatIfTruthy s.format) s.description
    else if s.stype == some "boolean" then
      .primitive .boolean (formatIfTruthy s.format) s.description
    else if (s.nullable.getD false) && truthyStr s.stype then
      .union [convertJSchema fuel (some s.clearNullable),
              .primitive .null none none] s.description
    else
      .primitive .unknown none s.description
termination_by fuel _ => (fuel, 1, 0)

def convertManyJ : Nat → List JSchema → List ApiType
  | _, [] => []
  | fuel, v :: rest => convertJSchema fuel (some v) :: convertManyJ fuel rest
termination_by fuel l => (fuel, 2, l.length)

/-- `convertObjectSchema`. -/
def convertObjectSchemaJ (fuel : Nat) (s : JSchema) : ApiType :=
  let requiredSet := s.required.getD []
  .object (if truthyStr s.title then s.title else none)
    (convertPropsJ fuel requiredSet (s.properties.getD []))
    (match s.additionalProperties with
     | some (.ofBool b) => some (.ofBool b)
     | some (.ofType t) => some (.ofType (convertJSchema fuel (some t)))
     | none => none)
    s.description
termination_by (fuel, 3, 0)

def convertPropsJ : Nat → List String → List (String × JSchema) → List ApiProperty
  | _, _, [] => []
  | fuel, req, (n, ps) :: rest =>
      .mk n (convertJSchema fuel (some ps)) (req.contains n) ps.description
        :: convertPropsJ fuel req rest
termination_by fuel _ l => (fuel, 2, l.length)

end

-- ===========================================================================
-- §6  GraphQL normalizer (graphql parser) and Swagger-2 scalar mapping
-- ===========================================================================

/-- The result record of `mapScalarType`. -/
structure ScalarMapping where
  ptype : PrimKind
  format : Option String := none
deriving DecidableEq, Repr

/-- `mapScalarType`: GraphQL scalar name to IR primitive. -/
def mapScalarType (name : String) : ScalarMapping :=
  match name with
  | "String" => { ptype := .string }
  | "Int" => { ptype := .number, format := some "int32" }
  | "Float" => { ptype := .number, format := some "float" }
  | "Boolean" => { ptype := .boolean }
  | "ID" => { ptype := .string, format := some "id" }
  | "DateTime" => { ptype := .string, format := some "date-time" }
  | "Date" => { ptype := .string, format := some "date" }
  | "JSON" => { ptype := .unknown }
  | "JSONObject" => { ptype := .unknown }
  | _ => { ptype := .string }

/-- The scalar names `mapScalarType` matches explicitly. -/
def GRAPHQL_SCALAR_NAMES : List String :=
  ["String", "Int", "Float", "Boolean", "ID", "DateTime", "Date", "JSON", "JSONObject"]

/-- `mapSwagger2Type`: Swagger 2.0 `type` string to IR primitive kind. -/
def mapSwagger2Type : Option String → PrimKind
  | some "string" => .string
  | some "number" => .number
  | some "float" => .number
  | some "double" => .number
  | some "integer" => .integer
  | some "long" => .integer
  | some "boolean" => .boolean
  | _ => .unknown

/-- The type names `mapSwagger2Type` matches explicitly. -/
def SWAGGER2_TYPE_NAMES : List String :=
  ["string", "number", "float", "double", "integer", "long", "boolean"]

/-- A GraphQL type expression (named type with NonNull / List wrappers). -/
inductive GqlTypeExpr where
  | named (n : String)
  | listOf (t : GqlTypeExpr)
  | nonNull (t : GqlTypeExpr)

/-- A field argument. -/
structure GqlArg where
  name : String
  atype : GqlTypeExpr
  description : Option String := none

/-- An object/input-object field. -/
structure GqlField where
  name : String
  ftype : GqlTypeExpr
  args : List GqlArg := []
  description : Option String := none
  deprecationReason : Option String := none

/-- A named type definition in the schema's type map. -/
inductive GqlTypeDef where
  | scalarDef (description : Option String)
  | objectDef (fields : List GqlField) (description : Option String)
  | inputObjectDef (fields : List GqlField) (description : Option String)
  | enumDef (values : List String) (description : Option String)
  | unionDef (members : List String) (description : Option String)

/-- A built GraphQL schema: the type map plus the three root type names. -/
structure GqlSchema where
  typeMap : List (String × GqlTypeDef)
  queryType : Option String := none
  mutationType : Option String := none
  subscriptionType : Option String := none

mutual

/-- `convertGraphQLType`: unwrap one NonNull wrapper into `required`.
The `visitedTypes` module set is threaded explicitly as state. -/
def convertGraphQLTypeG (sch : GqlSchema) (fuel : Nat) (t : GqlTypeExpr)
    (v : List String) : ((ApiType × Bool) × List String) :=
  match t with
  | .nonNull inner =>
      let (a, v') := convertInnerTypeG sch fuel inner v
      ((a, true), v')
  | _ =>
      let (a, v') := convertInnerTypeG sch fuel t v
      ((a, false), v')
termination_by (fuel, 1, 0)

/-- `convertInnerType`. -/
def convertInnerTypeG (sch : GqlSchema) :
    Nat → GqlTypeExpr → List String → (ApiType × List String)
  | 0, _, v => (.primitive .unknown none none, v)
  | Nat.succ fuel, t, v =>
    match t with
    | .listOf inner =>
        let innerExpr := match inner with
          | .nonNull i => i
          | i => i
        let (a, v') := convertInnerTypeG sch fuel innerExpr v
        (.array a none, v')
    | .nonNull _ => (.primitive .unknown none none, v)
    | .named n =>
        match sch.typeMap.lookup n with
        | some (.scalarDef descr) =>
            let m := mapScalarType n
            (.primitive m.ptype m.format descr, v)
        | some (.enumDef vals descr) =>
            (.enumType (some n) (vals.map EnumValue.str) descr, v)
        | some (.unionDef members descr) =>
            let (variants, v') := convertManyG sch fuel (members.map GqlTypeExpr.named) v
            (.union variants descr, v')
        | some (.objectDef fields descr) =>
            convertObjectTypeG sch fuel n fields descr v
        | some (.inputObjectDef fields descr) =>
            convertObjectTypeG sch fuel n fields descr v
        | none => (.primitive .unknown none none, v)
termination_by fuel _ _ => (fuel, 0, 0)

def convertManyG (sch : GqlSchema) :
    Nat → List GqlTypeExpr → List String → (List ApiType × List String)
  | _, [], v => ([], v)
  | fuel, t :: rest, v =>
      let (a, v') := convertInnerTypeG sch fuel t v
      let (as_, v'') := convertManyG sch fuel rest v'
      (a :: as_, v'')
termination_by fuel l _ => (fuel, 2, l.length)

/-- `convertObjectType` / `convertInputObjectType` (textually identical in
the source): guard re-entrant expansion with the visited set, emit a `ref`
stub on re-entry, and delete the name again in the `finally`. -/
def convertObjectTypeG (sch : GqlSchema) (fuel : Nat) (name : String)
    (fields : List GqlField) (descr : Option String)
    (v : List String) : (ApiType × List String) :=
  if v.contains name then (.ref name, v)
  else
    let v1 := v ++ [name]
    let (props, v2) := convertFieldsG sch fuel fields v1
    (.object (some name) props none descr, v2.erase name)
termination_by (fuel, 3, 0)

def convertFieldsG (sch : GqlSchema) :
    Nat → List GqlField → List String → (List ApiProperty × List String)
  | _, [], v => ([], v)
  | fuel, f :: rest, v =>
      let ((a, req), v') := convertGraphQLTypeG sch fuel f.ftype v
      let (ps, v'') := convertFieldsG sch fuel rest v'
      (.mk f.name a req f.description :: ps, v'')
termination_by fuel l _ => (fuel, 2, l.length)

end

/-- `convertArgument`. -/
def convertArgumentG (sch : GqlSchema) (fuel : Nat) (arg : GqlArg)
    (v : List String) : (ApiParam × List String) :=
  let ((t, req), v') := convertGraphQLTypeG sch fuel arg.atype v
  ({ name := arg.name, required := req, type := t,
     description := arg.description, location := .query }, v')

def convertArgsG (sch : GqlSchema) (fuel : Nat) :
    List GqlArg → List String → (List ApiParam × List String)
  | [], v => ([], v)
  | a :: rest, v =>
      let (p, v') := convertArgumentG sch fuel a v
      let (ps, v'') := convertArgsG sch fuel rest v'
      (p :: ps, v'')

/-- The second conversion pass over the arguments that builds the
synthetic request-body properties (the source converts each argument
twice). -/
def convertArgPropsG (sch : GqlSchema) (fuel : Nat) :
    List GqlArg → List String → (List ApiProperty × List String)
  | [], v => ([], v)
  | a :: rest, v =>
      let ((t, req), v') := convertGraphQLTypeG sch fuel a.atype v
      let (ps, v'') := convertArgPropsG sch fuel rest v'
      (.mk a.name t req a.description :: ps, v'')

def gqlIsNonNull : GqlTypeExpr → Bool
  | .nonNull _ => true
  | _ => false

/-- One field of a root type becomes one operation. -/
def buildOpFromFieldG (sch : GqlSchema) (fuel : Nat) (method : OperationMethod)
    (tag : String) (f : GqlField) (v : List String) : (ApiOperation × List String) :=
  let (queryParams, v1) := convertArgsG sch fuel f.args v
  let (requestBody, v2) :=
    if f.args.isEmpty then (none, v1)
    else
      let (argProps, v2) := convertArgPropsG sch fuel f.args v1
      (some { required := f.args.any (fun a => gqlIsNonNull a.atype)
              contentType := "application/json"
              type := .object none argProps none none }, v2)
  let ((respType, _), v3) := convertGraphQLTypeG sch fuel f.ftype v2
  ({ operationId := f.name, summary := f.description, method, path := f.name
     tags := [tag], pathParams := [], queryParams, headerParams := []
     requestBody
     response := { statusCode := .num 200, contentType := "application/json"
                   type := respType, description := f.description }
     pagination := none, deprecated := f.deprecationReason.isSome }, v3)

def buildOpsFromFieldsG (sch : GqlSchema) (fuel : Nat) (method : OperationMethod)
    (tag : String) : List GqlField → List String → (List ApiOperation × List String)
  | [], v => ([], v)
  | f :: rest, v =>
      let (op, v') := buildOpFromFieldG sch fuel method tag f v
      let (ops, v'') := buildOpsFromFieldsG sch fuel method tag rest v'
      (op :: ops, v'')

/-- `buildOperationsFromType`. -/
def buildOperationsFromTypeG (sch : GqlSchema) (fuel : Nat)
    (rootName : Option String) (method : OperationMethod) (tag : String)
    (v : List String) : (List ApiOperation × List String) :=
  match rootName with
  | none => ([], v)
  | some rn =>
      match sch.typeMap.lookup rn with
      | some (.objectDef fields _) => buildOpsFromFieldsG sch fuel method tag fields v
      | _ => ([], v)

/-- `extractNamedTypes`: register object / input-object / enum / union
definitions; introspection names and scalars are skipped (custom scalars
fall through the type-kind chain unregistered), and so are the three root
object types. -/
def extractNamedTypesG (sch : GqlSchema) (fuel : Nat) :
    List (String × GqlTypeDef) → List String → (List (String × ApiType) × List String)
  | [], v => ([], v)
  | (name, d) :: rest, v =>
      if jsStartsWith name "__" then extractNamedTypesG sch fuel rest v
      else
        match d with
        | .scalarDef _ => extractNamedTypesG sch fuel rest v
        | .objectDef fields descr =>
            if some name == sch.queryType || some name == sch.mutationType ||
               some name == sch.subscriptionType then
              extractNamedTypesG sch fuel rest v
            else
              let (t, v') := convertObjectTypeG sch fuel name fields descr v
              let (ts, v'') := extractNamedTypesG sch fuel rest v'
              ((name, t) :: ts, v'')
        | .inputObjectDef fields descr =>
            let (t, v') := convertObjectTypeG sch fuel name fields descr v
            let (ts, v'') := extractNamedTypesG sch fuel rest v'
            ((name, t) :: ts, v'')
        | .enumDef vals descr =>
            let (ts, v') := extractNamedTypesG sch fuel rest v
            ((name, .enumType (some name) (vals.map EnumValue.str) descr) :: ts, v')
        | .unionDef members descr =>
            let (variants, v') := convertManyG sch fuel (members.map GqlTypeExpr.named) v
            let (ts, v'') := extractNamedTypesG sch fuel rest v'
            ((name, .union variants descr) :: ts, v'')

def gqlExprSize : GqlTypeExpr → Nat
  | .named _ => 1
  | .listOf t => 1 + gqlExprSize t
  | .nonNull t => 1 + gqlExprSize t

/-- A recursion-depth bound large enough for every conversion started by
`graphqlParse`: expansion chains revisit no named type (visited guard), so
depth is bounded by the number of named types times the largest type
expression, plus slack. -/
def gqlFuel (sch : GqlSchema) : Nat :=
  let exprBound := sch.typeMap.foldl
    (fun acc (nd : String × GqlTypeDef) =>
      match nd.2 with
      | .objectDef fields _ =>
          fields.foldl
            (fun a f =>
              (a.max (gqlExprSize f.ftype)).max
                (f.args.foldl (fun b ar => b.max (gqlExprSize ar.atype)) 0))
            acc
      | .inputObjectDef fields _ =>
          fields.foldl
            (fun a f =>
              (a.max (gqlExprSize f.ftype)).max
                (f.args.foldl (fun b ar => b.max (gqlExprSize ar.atype)) 0))
            acc
      | _ => acc)
    0
  (sch.typeMap.length + 2) * (exprBound + 3)

/-- `graphqlParser.parse` after the schema is built: the module-level
`visitedTypes` set is taken as explicit incoming state, cleared before the
conversion passes (`visitedTypes.clear()`), threaded through them, and
cleared again before returning. -/
def graphqlParse (sch : GqlSchema) (baseUrlOpt : Option String)
    (visitedTypes : List String) : (ApiSpec × List String) :=
  let v0 : List String := []
  let fuel := gqlFuel sch
  let (ops1, v1) := buildOperationsFromTypeG sch fuel sch.queryType .QUERY "queries" v0
  let (ops2, v2) := buildOperationsFromTypeG sch fuel sch.mutationType .MUTATION "mutations" v1
  let (ops3, v3) := buildOperationsFromTypeG sch fuel sch.subscriptionType .SUBSCRIPTION "subscriptions" v2
  let (types, _) := extractNamedTypesG sch fuel sch.typeMap v3
  ({ title := "GraphQL API", baseUrl := baseUrlOpt.getD "/graphql"
     version := "0.0.0", operations := ops1 ++ ops2 ++ ops3, types }, [])

-- ===========================================================================
-- §7  Parser dispatch (src/parsers/index.ts)
-- ===========================================================================

/-- A parsed JS value (the resolved input handed to the parsers). -/
inductive JsValue where
  | str (s : String)
  | numV (n : Int)
  | boolV (b : Bool)
  | nullV
  | arr (elems : List JsValue)
  | obj (fields : List (String × JsValue))

/-- `openApiParser.canParse`: an object whose `openapi` field is a string
starting with `"3"`. -/
def canParseOpenApi (v : JsValue) : Bool :=
  match v with
  | .obj fields =>
      match fields.lookup "openapi" with
      | some (.str s) => jsStartsWith s "3"
      | _ => false
  | _ => false

/-- `swaggerParser.canParse`: an object with `swagger === '2.0'`. -/
def canParseSwagger (v : JsValue) : Bool :=
  match v with
  | .obj fields =>
      match fields.lookup "swagger" with
      | some (.str s) => s == "2.0"
      | _ => false
  | _ => false

/-- `'__schema' in input` on an object. -/
def isIntrospectionResult (v : JsValue) : Bool :=
  match v with
  | .obj fields => (fields.map Prod.fst).contains "__schema"
  | _ => false

/-- `'data' in input && typeof input.data === 'object' && input.data !== null
&& '__schema' in input.data`. -/
def isIntrospectionWrapper (v : JsValue) : Bool :=
  match v with
  | .obj fields =>
      match fields.lookup "data" with
      | some (.obj dfields) => (dfields.map Prod.fst).contains "__schema"
      | _ => false
  | _ => false

/-- JS `\s` whitespace, at the ASCII level. -/
def jsWhitespace (c : Char) : Bool :=
  c == ' ' || c == '\t' || c == '\n' || c == '\r' || c == '\x0b' || c == '\x0c'

/-- The SDL keyword regex
`/^\s*(type |schema |input |enum |union |interface |scalar |directive |extend )/`. -/
def sdlKeywordTest (s : String) : Bool :=
  let rest : String := ⟨s.data.dropWhile jsWhitespace⟩
  ["type ", "schema ", "input ", "enum ", "union ", "interface ", "scalar ",
   "directive ", "extend "].any (fun k => jsStartsWith rest k)

/-- `isSDLString`. -/
def isSDLString (v : JsValue) : Bool :=
  match v with
  | .str s => sdlKeywordTest s
  | _ => false

/-- `graphqlParser.canParse`. -/
def canParseGraphql (v : JsValue) : Bool :=
  isIntrospectionResult v || isIntrospectionWrapper v || isSDLString v

/-- Which parser claimed the input. -/
inductive ParserId where
  | openapi | swagger2 | graphql
deriving DecidableEq, Repr

/-- The diagnostic hint of `parseSpec`'s failure message: the first five
object keys, or the first 80 characters of string input.  `Object.keys` of
an array yields its index strings. -/
def formatHint (v : JsValue) : String :=
  match v with
  | .obj fields =>
      " Object keys: [" ++ String.intercalate ", " ((fields.map Prod.fst).take 5) ++ "]."
  | .arr elems =>
      " Object keys: [" ++
        String.intercalate ", " (((List.range elems.length).map toString).take 5) ++ "]."
  | .str s => " String starts with: \"" ++ jsTake s 80 ++ "...\"."
  | _ => ""

/-- The full `ParseError` message built when no parser matches. -/
def specFormatErrorMessage (v : JsValue) : String :=
  "Unable to detect API specification format." ++ formatHint v ++ " " ++
  "Expected an OpenAPI 3.x document (with \"openapi\" field starting with \"3\"), " ++
  "a Swagger 2.0 document (with \"swagger\": \"2.0\"), " ++
  "or a GraphQL schema (introspection JSON with \"__schema\", or SDL string)."

/-- `parseSpec`'s dispatch over the fixed parser list
`[openApiParser, swaggerParser, graphqlParser]`; a successful dispatch
stands for delegating to that parser's `parse` (an external effect). -/
def parseSpecDispatch (v : JsValue) : Except String ParserId :=
  if canParseOpenApi v then .ok .openapi
  else if canParseSwagger v then .ok .swagger2
  else if canParseGraphql v then .ok .graphql
  else .error (specFormatErrorMessage v)

-- ===========================================================================
-- §8  Concrete example inputs
-- ===========================================================================

/-- Response object `{items: array, nextCursor: string}`. -/
def exCursorResponseType : ApiType :=
  .object none
    [ .mk "items" (.array (.primitive .string none none) none) true none
    , .mk "nextCursor" (.primitive .string none none) false none ] none none

/-- A GET operation with query params `{cursor}` and the response above. -/
def exCursorOp : ApiOperation :=
  { operationId := "listThings", method := .GET, path := "/things", tags := ["default"]
    pathParams := [], headerParams := []
    queryParams := [{ name := "cursor", required := false
                      type := .primitive .string none none, location := .query }]
    response := { statusCode := .num 200, contentType := "application/json"
                  type := exCursorResponseType }
    deprecated := false }

/-- A GET operation with query params `{offset, page}` (no limit-like and
no cursor-like parameter). -/
def exOffsetPageOp : ApiOperation :=
  { operationId := "listItems", method := .GET, path := "/items", tags := ["default"]
    pathParams := [], headerParams := []
    queryParams :=
      [ { name := "offset", required := false
          type := .primitive .integer none none, location := .query }
      , { name := "page", required := false
          type := .primitive .integer none none, location := .query } ]
    response := { statusCode := .num 200, contentType := "application/json"
                  type := .primitive .unknown none none }
    deprecated := false }

/-- A GET operation with query params `{offset}` only. -/
def exOffsetOnlyOp : ApiOperation :=
  { exOffsetPageOp with
    queryParams := [{ name := "offset", required := false
                      type := .primitive .integer none none, location := .query }] }

/-- An operation that already carries caller-provided pagination. -/
def exPaginatedOp : ApiOperation :=
  { exCursorOp with
    pagination := some { strategy := .offsetLimit, pageParam := "offset"
                         nextPagePath := ["offset"], itemsPath := ["rows"] } }

/-- A write operation (POST). -/
def exPostOp : ApiOperation :=
  { exCursorOp with operationId := "createThing", method := .POST }

/-- A small spec exercising all three per-operation cases. -/
def exSpec : ApiSpec :=
  { title := "T", baseUrl := "", version := "1.0.0"
    operations := [exCursorOp, exPaginatedOp, exPostOp, exOffsetOnlyOp]
    types := [] }

/-- Registry `{A: ref B, B: ref A}`. -/
def exAB : List (String × ApiType) := [("A", .ref "B"), ("B", .ref "A")]

/-- Registry `{A: ref B, B: ref C, C: primitive}`. -/
def exABC : List (String × ApiType) :=
  [("A", .ref "B"), ("B", .ref "C"), ("C", .primitive .string none none)]

/-- Registry `{U: object{x: ref B, y: ref A}, A: ref B, B: ref U}`: every
name lies on a cycle (`U→B→U` and `U→A→B→U`), but the DFS reaches `A`
only after `B` is already fully visited. -/
def exUAB : List (String × ApiType) :=
  [ ("U", .object none [.mk "x" (.ref "B") true none, .mk "y" (.ref "A") true none] none none)
  , ("A", .ref "B")
  , ("B", .ref "U") ]

/-- An object schema `{id: string, x: integer}`, required `[id]`, with an
empty (falsy) description. -/
def exSchemaA : JSchema :=
  .mk (some "object")
    (some [ ("id", .mk (some "string") none none none none none none none none none none none none)
          , ("x", .mk (some "integer") none none none none none none none none none none none none) ])
    (some ["id"]) (some "") none none none none none none none none none

/-- An object schema `{x: string}`, required `[x]`, description "B doc". -/
def exSchemaB : JSchema :=
  .mk (some "object")
    (some [("x", .mk (some "string") none none none none none none none none none none none none)])
    (some ["x"]) (some "B doc") none none none none none none none none none

/-- A bare schema `{type: "csv"}` (unrecognized scalar name). -/
def exCsvSchema : JSchema :=
  .mk (some "csv") none none none none none none none none none none none none

/-- An object input no parser recognizes. -/
def exUnknownObj : JsValue := .obj [("foo", .numV 1), ("bar", .str "x")]

/-- A string input no parser recognizes. -/
def exUnknownStr : JsValue := .str "hello world"

/-- An OpenAPI 3.x document shape. -/
def exOpenApiObj : JsValue := .obj [("openapi", .str "3.1.0")]

/-- `toPascalCase` of the input with its first character lower-cased (the
claim-side description of `toCamelCase`'s value on good inputs). -/
def lowerFirstStr (p : String) : String :=
  match p.data with
  | [] => ""
  | c :: r => ⟨c.toLower :: r⟩

/-- `goodCirc`: every name already marked circular lies on a reference
cycle (the soundness invariant carried through the DFS). -/
def goodCirc (types : List (String × ApiType)) (st : DfsSt) : Prop :=
  ∀ x ∈ st.circular, onRefCycle types x

-- ===========================================================================
-- §9  Helper lemmas
-- ===========================================================================

theorem find?_append_cons {p : String → Bool} :
    ∀ (l₁ : List String) (a : String) (l₂ : List String),
      (∀ x ∈ l₁, p x = false) → p a = true →
      (l₁ ++ a :: l₂).find? p = some a := by
  intro l₁
  induction l₁ with
  | nil => intro a l₂ _ ha; simp [List.find?_cons, ha]
  | cons x xs ih =>
      intro a l₂ h ha
      have hx : p x = false := h x (List.mem_cons_self x xs)
      simp [List.find?_cons, hx,
        ih a l₂ (fun y hy => h y (List.mem_cons_of_mem _ hy)) ha]

theorem applyPaginationToOp_idem (op : ApiOperation) :
    applyPaginationToOp (applyPaginationToOp op) = applyPaginationToOp op := by
  unfold applyPaginationToOp
  by_cases hm : op.method ≠ .GET ∧ op.method ≠ .QUERY
  · simp [hm]
  · by_cases hp : op.pagination.isSome
    · simp [hm, hp]
    · cases hd : detectPagination op with
      | none => simp [hm, hp, hd]
      | some pg => simp [hm, hp, hd]

theorem transGen_of_chain_mem {α : Type} {R : α → α → Prop} :
    ∀ (l : List α) (a b : α), List.Chain R a l → b ∈ l → Relation.TransGen R a b := by
  intro l
  induction l with
  | nil => intro a b _ hb; cases hb
  | cons c cs ih =>
      intro a b hch hb
      rw [List.chain_cons] at hch
      rcases List.mem_cons.mp hb with rfl | hb
      · exact Relation.TransGen.single hch.1
      · exact Relation.TransGen.head hch.1 (ih c b hch.2 hb)

theorem cycle_mem_transGen {α : Type} {R : α → α → Prop} (c : α) (l : List α)
    (h : List.Chain R c (l ++ [c])) : ∀ x ∈ c :: l, Relation.TransGen R x x := by
  intro x hx
  rcases List.mem_cons.mp hx with rfl | hxl
  · exact transGen_of_chain_mem _ _ _ h (by simp)
  · obtain ⟨u, v, rfl⟩ := List.append_of_mem hxl
    have h' : List.Chain R c (u ++ x :: (v ++ [c])) := by
      have : (u ++ x :: v) ++ [c] = u ++ x :: (v ++ [c]) := by simp
      rwa [this] at h
    obtain ⟨h1, h2⟩ := List.chain_split.mp h'
    have t1 : Relation.TransGen R c x := transGen_of_chain_mem _ _ _ h1 (by simp)
    have t2 : Relation.TransGen R x c := transGen_of_chain_mem _ _ _ h2 (by simp)
    exact t2.trans t1

theorem mem_addUnique {l : List String} {a x : String} (h : x ∈ addUnique l a) :
    x ∈ l ∨ x = a := by
  unfold addUnique at h
  by_cases hc : l.contains a
  · rw [if_pos hc] at h; exact Or.inl h
  · rw [if_neg hc] at h
    rcases List.mem_append.mp h with h | h
    · exact Or.inl h
    · exact Or.inr (by simpa using h)

theorem mem_foldl_addUnique :
    ∀ (l init : List String) (x : String), x ∈ l.foldl addUnique init →
      x ∈ init ∨ x ∈ l := by
  intro l
  induction l with
  | nil => intro init x h; exact Or.inl h
  | cons a rest ih =>
      intro init x h
      rcases ih (addUnique init a) x h with h | h
      · rcases mem_addUnique h with h | h
        · exact Or.inl h
        · exact Or.inr (by simp [h])
      · exact Or.inr (List.mem_cons_of_mem _ h)

theorem listIndexOf_drop :
    ∀ (path : List String) (name : String), name ∈ path →
      ∃ t, path.drop (listIndexOf path name) = name :: t := by
  intro path
  induction path with
  | nil => intro name h; cases h
  | cons a rest ih =>
      intro name h
      by_cases ha : (a == name) = true
      · refine ⟨rest, ?_⟩
        have : listIndexOf (a :: rest) name = 0 := by
          simp [listIndexOf, List.findIdx?_cons, ha]
        rw [this, List.drop_zero]
        rw [beq_iff_eq] at ha
        rw [ha]
      · have hname : name ∈ rest := by
          rcases List.mem_cons.mp h with rfl | h
          · rw [beq_iff_eq] at ha; exact absurd rfl ha
          · exact h
        obtain ⟨t, ht⟩ := ih name hname
        cases hfi : rest.findIdx? (fun y => y == name) with
        | none =>
            exfalso
            have : listIndexOf rest name = rest.length := by simp [listIndexOf, hfi]
            rw [this, List.drop_length] at ht
            cases ht
        | some i =>
            refine ⟨t, ?_⟩
            have h1 : listIndexOf (a :: rest) name = i + 1 := by
              simp [listIndexOf, List.findIdx?_cons, ha, hfi]
            have h2 : listIndexOf rest name = i := by simp [listIndexOf, hfi]
            rw [h1, List.drop_succ_cons, ← h2, ht]

theorem markCycle_good {types : List (String × ApiType)} {path : List String}
    {name : String} {circular : List String}
    (hg : ∀ x ∈ circular, onRefCycle types x)
    (hchain : List.Chain' (refStep types) (path ++ [name])) :
    ∀ x ∈ markCycle path name circular, onRefCycle types x := by
  intro x hx
  unfold markCycle at hx
  rcases mem_foldl_addUnique _ _ _ hx with hx | hx
  · exact hg x hx
  · by_cases hmem : name ∈ path
    · obtain ⟨t, ht⟩ := listIndexOf_drop path name hmem
      rw [ht] at hx
      have hdecomp : path = path.take (listIndexOf path name) ++ (name :: t) := by
        conv_lhs => rw [← List.take_append_drop (listIndexOf path name) path]
        rw [ht]
      have hsuffix : (name :: (t ++ [name])) <:+ (path ++ [name]) := by
        refine ⟨path.take (listIndexOf path name), ?_⟩
        rw [show path.take (listIndexOf path name) ++ (name :: (t ++ [name])) =
            (path.take (listIndexOf path name) ++ (name :: t)) ++ [name] by simp, ← hdecomp]
      have hchain2 : List.Chain' (refStep types) (name :: (t ++ [name])) :=
        hchain.suffix hsuffix
      have hchain3 : List.Chain (refStep types) name (t ++ [name]) := hchain2
      exact cycle_mem_transGen name t hchain3 x hx
    · exfalso
      have hnone : path.findIdx? (fun y => y == name) = none := by
        rw [List.findIdx?_eq_none_iff]
        intro y hy
        simp only [beq_eq_false_iff_ne, ne_eq]
        intro he; exact hmem (he ▸ hy)
      have : listIndexOf path name = path.length := by simp [listIndexOf, hnone]
      rw [this, List.drop_length] at hx
      cases hx

theorem dfsCirc_good (types : List (String × ApiType)) :
    ∀ (fuel : Nat) (name : String) (path : List String) (st : DfsSt),
      goodCirc types st →
      List.Chain' (refStep types) (path ++ [name]) →
      goodCirc types (dfsCirc types fuel name path st) := by
  intro fuel
  induction fuel with
  | zero => intro name path st hg _; exact hg
  | succ fuel ih =>
      intro name path st hg hchain
      simp only [dfsCirc]
      by_cases hin : st.inStack.contains name = true
      · rw [if_pos hin]
        exact markCycle_good hg hchain
      · rw [if_neg hin]
        by_cases hv : st.visited.contains name = true
        · rw [if_pos hv]; exact hg
        · rw [if_neg hv]
          have hfold : ∀ (ds : List String), (∀ d ∈ ds, refStep types name d) →
              ∀ st' : DfsSt, goodCirc types st' →
              goodCirc types (ds.foldl (fun acc dep =>
                if (types.map Prod.fst).contains dep then
                  dfsCirc types fuel dep (path ++ [name]) acc
                else acc) st') := by
            intro ds
            induction ds with
            | nil => intro _ st' h; exact h
            | cons d rest ihd =>
                intro hds st' hst'
                simp only [List.foldl_cons]
                apply ihd (fun y hy => hds y (List.mem_cons_of_mem _ hy))
                by_cases hc : (types.map Prod.fst).contains d = true
                · rw [if_pos hc]
                  apply ih d (path ++ [name]) st' hst'
                  refine List.Chain'.append hchain (List.chain'_singleton d) ?_
                  intro x hx y hy
                  rw [List.getLast?_concat] at hx
                  simp only [Option.mem_def, Option.some.injEq] at hx
                  simp only [List.head?_cons, Option.mem_def, Option.some.injEq] at hy
                  rw [← hx, ← hy]
                  exact hds d (List.mem_cons_self _ _)
                · rw [if_neg hc]; exact hst'
          intro x hx
          exact hfold (depsOf types name) (fun d hd => hd)
            { st with visited := addUnique st.visited name
                      inStack := addUnique st.inStack name } hg x hx

theorem detectCircularTypes_sound (types : List (String × ApiType)) :
    ∀ x ∈ detectCircularTypes types, onRefCycle types x := by
  unfold detectCircularTypes
  have hfold : ∀ (ks : List String) (st : DfsSt), goodCirc types st →
      goodCirc types (ks.foldl
        (fun acc name => dfsCirc types (types.length + 1) name [] acc) st) := by
    intro ks
    induction ks with
    | nil => intro st h; exact h
    | cons k rest ihk =>
        intro st h
        simp only [List.foldl_cons]
        exact ihk _ (dfsCirc_good types _ k [] st h (List.chain'_singleton k))
  intro x hx
  exact hfold _ ⟨[], [], []⟩ (fun y hy => absurd hy (List.not_mem_nil y)) x hx

theorem lookup_eq_none_of_not_mem {β : Type} {l : List (String × β)} {k : String}
    (h : k ∉ l.map Prod.fst) : l.lookup k = none := by
  induction l with
  | nil => rfl
  | cons ab rest ih =>
      obtain ⟨a, b⟩ := ab
      have hka : ¬ (k == a) = true := by
        simp only [List.map_cons, List.mem_cons] at h
        simp only [beq_iff_eq]
        intro he; exact h (Or.inl he)
      simp only [List.lookup]
      rw [Bool.not_eq_true] at hka
      rw [hka]
      exact ih (fun hm => h (by simp only [List.map_cons, List.mem_cons]; exact Or.inr hm))

theorem lookup_isSome_of_mem {β : Type} {l : List (String × β)} {k : String}
    (h : k ∈ l.map Prod.fst) : ∃ v, l.lookup k = some v := by
  induction l with
  | nil => cases h
  | cons ab rest ih =>
      obtain ⟨a, b⟩ := ab
      by_cases hka : k = a
      · exact ⟨b, by simp [List.lookup, hka]⟩
      · have : k ∈ rest.map Prod.fst := by
          simp only [List.map_cons, List.mem_cons] at h
          exact h.resolve_left hka
        obtain ⟨v, hv⟩ := ih this
        have hka' : (k == a) = false := beq_eq_false_iff_ne.mpr hka
        exact ⟨v, by simp [List.lookup, hka', hv]⟩

theorem lookup_map_replace {k₀ : String} {v₀ : JSchema} :
    ∀ (l : List (String × JSchema)) (k : String),
      (l.map (fun kv2 => if kv2.1 == k₀ then (kv2.1, v₀) else kv2)).lookup k =
      if k == k₀ then (l.lookup k₀).map (fun _ => v₀) else l.lookup k := by
  intro l
  induction l with
  | nil => intro k; cases h : (k == k₀) <;> simp [List.lookup, h]
  | cons ab rest ih =>
      obtain ⟨a, b⟩ := ab
      intro k
      simp only [List.map_cons]
      by_cases hak : (a == k₀) = true
      · rw [if_pos hak]
        simp only [List.lookup]
        by_cases hka : (k == a) = true
        · have hk0 : (k == k₀) = true := by
            rw [beq_iff_eq] at hka hak ⊢; rw [hka, hak]
          have h0a : (k₀ == a) = true := by
            rw [beq_iff_eq] at hak ⊢; rw [hak]
          simp [List.lookup, hka, hk0, h0a]
        · have hka' : (k == a) = false := by simpa using hka
          simp only [hka']
          rw [ih k]
          by_cases hk0 : (k == k₀) = true
          · rw [beq_iff_eq] at hak hk0
            rw [beq_eq_false_iff_ne] at hka'
            exact absurd (hk0.trans hak.symm) hka'
          · have hk0' : (k == k₀) = false := by simpa using hk0
            simp [List.lookup, hka', hk0']
      · have hak' : (a == k₀) = false := by simpa using hak
        rw [if_neg (by simp [hak'])]
        simp only [List.lookup]
        by_cases hka : (k == a) = true
        · have hk0' : (k == k₀) = false := by
            rw [beq_iff_eq] at hka; rw [beq_eq_false_iff_ne] at hak' ⊢
            rw [hka]; exact hak'
          have h0a : (k₀ == a) = false := by
            rw [beq_eq_false_iff_ne] at hak' ⊢; exact fun he => hak' he.symm
          simp [List.lookup, hk0', hka]
        · have hka' : (k == a) = false := by simpa using hka
          simp only [hka']
          rw [ih k]
          by_cases hk0 : (k == k₀) = true
          · have h0a : (k₀ == a) = false := by
              rw [beq_iff_eq] at hk0; rw [beq_eq_false_iff_ne] at hka' ⊢
              intro he; exact hka' (hk0.trans he)
            simp [List.lookup, hk0, h0a]
          · have hk0' : (k == k₀) = false := by simpa using hk0
            simp [List.lookup, hk0', hka']

theorem lookup_append_right {β : Type} {l₁ l₂ : List (String × β)} {k : String}
    (h : l₁.lookup k = none) : (l₁ ++ l₂).lookup k = l₂.lookup k := by
  induction l₁ with
  | nil => rfl
  | cons ab rest ih =>
      obtain ⟨a, b⟩ := ab
      simp only [List.lookup, List.cons_append] at h ⊢
      cases hka : (k == a) with
      | true => rw [hka] at h; cases h
      | false => rw [hka] at h; exact ih h

theorem lookup_append_left {β : Type} {l₁ l₂ : List (String × β)} {k : String} {v : β}
    (h : l₁.lookup k = some v) : (l₁ ++ l₂).lookup k = some v := by
  induction l₁ with
  | nil => cases h
  | cons ab rest ih =>
      obtain ⟨a, b⟩ := ab
      simp only [List.lookup, List.cons_append] at h ⊢
      cases hka : (k == a) with
      | true => simp only [hka] at h ⊢; exact h
      | false => simp only [hka] at h ⊢; exact ih h

theorem assignStep_lookup (base : List (String × JSchema)) (k₀ : String) (v₀ : JSchema)
    (k : String) :
    ((if (base.map Prod.fst).contains k₀ then
        base.map (fun kv2 => if kv2.1 == k₀ then (kv2.1, v₀) else kv2)
      else base ++ [(k₀, v₀)]).lookup k) =
    if k == k₀ then some v₀ else base.lookup k := by
  by_cases hc : (base.map Prod.fst).contains k₀
  · rw [if_pos hc, lookup_map_replace]
    by_cases hk : k = k₀
    · obtain ⟨v, hv⟩ := lookup_isSome_of_mem (by simpa using hc)
      simp [hk, hv]
    · simp [hk]
  · rw [if_neg hc]
    have hnone : base.lookup k₀ = none :=
      lookup_eq_none_of_not_mem (by simpa using hc)
    by_cases hk : k = k₀
    · subst hk
      rw [lookup_append_right hnone]
      simp [List.lookup]
    · have : (base ++ [(k₀, v₀)]).lookup k = base.lookup k := by
        cases hb : base.lookup k with
        | some v => exact lookup_append_left hb
        | none =>
            rw [lookup_append_right hb]
            have hbeq : (k == k₀) = false := beq_eq_false_iff_ne.mpr hk
            simp [List.lookup, hbeq]
      simp [this, hk]

theorem objectAssignProps_lookup :
    ∀ (extra base : List (String × JSchema)), ((extra.map Prod.fst).Nodup) →
      ∀ k, (objectAssignProps base extra).lookup k =
        ((extra.lookup k).elim (base.lookup k) some) := by
  intro extra
  induction extra with
  | nil => intro base _ k; simp [objectAssignProps, List.lookup]
  | cons ab rest ih =>
      obtain ⟨k₀, v₀⟩ := ab
      intro base hnd k
      have hstep : objectAssignProps base ((k₀, v₀) :: rest) =
          objectAssignProps
            (if (base.map Prod.fst).contains k₀ then
              base.map (fun kv2 => if kv2.1 == k₀ then (kv2.1, v₀) else kv2)
            else base ++ [(k₀, v₀)]) rest := rfl
      rw [hstep, ih _ (by simpa using hnd.of_cons) k]
      by_cases hk : k = k₀
      · subst hk
        have hrest : rest.lookup k = none := by
          apply lookup_eq_none_of_not_mem
          simp only [List.map_cons, List.nodup_cons] at hnd
          exact hnd.1
        rw [assignStep_lookup]
        simp [List.lookup, hrest]
      · rw [assignStep_lookup]
        have hbeq : (k == k₀) = false := beq_eq_false_iff_ne.mpr hk
        simp [List.lookup, hbeq]

theorem mergeAllOfStep_required (m s : JSchema) :
    (mergeAllOfStep m s).required = some ((m.required.getD []) ++ (s.required.getD [])) := by
  cases m; rfl

theorem mergeAllOfStep_properties (m s : JSchema) :
    (mergeAllOfStep m s).properties =
      some (objectAssignProps (m.properties.getD []) (s.properties.getD [])) := by
  cases m
  cases s with
  | mk t p r d e o a al i ad f n ti => cases p <;> rfl

theorem mergeAllOfStep_description (m s : JSchema) :
    (mergeAllOfStep m s).description =
      if truthyStr s.description && !truthyStr m.description then s.description
      else m.description := by
  cases m; rfl

theorem charLe_iff (a b : Char) : (a ≤ b) ↔ (a.toNat ≤ b.toNat) := by
  rw [Char.le_def, UInt32.le_def, BitVec.le_def]
  rfl

theorem char_toNat_ofNat {n : Nat} (h : n < 55296) : (Char.ofNat n).toNat = n := by
  unfold Char.ofNat
  rw [dif_pos (Or.inl h)]
  simp [Char.ofNatAux, Char.toNat, UInt32.ofNat', UInt32.toNat]

theorem toUpper_eq_of_not_alnum {c : Char} (h : isAlnumChar c = false) : c.toUpper = c := by
  unfold Char.toUpper
  simp only []
  rw [if_neg]
  intro hc
  simp only [isAlnumChar, Bool.or_eq_false_iff, Bool.and_eq_false_iff,
    decide_eq_false_iff_not, charLe_iff] at h
  obtain ⟨⟨h1, _⟩, _⟩ := h
  have ha : ('a'.toNat : Nat) = 97 := by decide
  have hz : ('z'.toNat : Nat) = 122 := by decide
  omega

theorem not_alnum_toUpper {c : Char} (h : isAlnumChar c = false) :
    isAlnumChar c.toUpper = false := by
  rw [toUpper_eq_of_not_alnum h]; exact h

theorem alnum_toUpper {c : Char} (h : isAlnumChar c = true) : isAlnumChar c.toUpper = true := by
  unfold Char.toUpper
  simp only []
  split
  · rename_i hc
    have hub : c.toNat - 32 < 55296 := by omega
    simp only [isAlnumChar, Bool.or_eq_true, Bool.and_eq_true, decide_eq_true_eq, charLe_iff]
    refine Or.inl (Or.inr ?_)
    rw [char_toNat_ofNat hub]
    have hA : ('A'.toNat : Nat) = 65 := by decide
    have hZ : ('Z'.toNat : Nat) = 90 := by decide
    omega
  · exact h

theorem rep1Aux_all_not_alnum :
    ∀ (l : List Char) (st : Option (Char × Bool)),
      (∀ c ∈ l, isAlnumChar c = false) →
      (∀ c b, st = some (c, b) → isAlnumChar c = false) →
      ∀ c ∈ pascalReplace1Aux st l, isAlnumChar c = false := by
  intro l
  induction l with
  | nil =>
      intro st h hst c hc
      match st, hc with
      | some (c₀, b), hc =>
          unfold pascalReplace1Aux at hc
          have h₀ : isAlnumChar c₀ = false := hst c₀ b rfl
          by_cases hb : b
          · simp [hb] at hc
            rw [hc]; exact not_alnum_toUpper h₀
          · simp [hb] at hc
            rw [hc]; exact h₀
  | cons d rest ih =>
      intro st h hst c hc
      have hd : isAlnumChar d = false := h d (List.mem_cons_self d rest)
      have hrest : ∀ c ∈ rest, isAlnumChar c = false :=
        fun y hy => h y (List.mem_cons_of_mem _ hy)
      match st with
      | none =>
          unfold pascalReplace1Aux at hc
          rw [if_neg (by simp [hd])] at hc
          exact ih (some (d, false)) hrest (by intro c' b' he; cases he; exact hd) c hc
      | some (e, b) =>
          unfold pascalReplace1Aux at hc
          rw [if_neg (by simp [hd])] at hc
          exact ih (some (d, true)) hrest (by intro c' b' he; cases he; exact hd) c hc

theorem rep1Aux_exists_alnum :
    ∀ (l : List Char) (st : Option (Char × Bool)),
      (∃ c ∈ l, isAlnumChar c = true) →
      ∃ c ∈ pascalReplace1Aux st l, isAlnumChar c = true := by
  intro l
  induction l with
  | nil => intro st h; obtain ⟨c, hc, _⟩ := h; cases hc
  | cons d rest ih =>
      intro st h
      by_cases hd : isAlnumChar d = true
      · match st with
        | none =>
            refine ⟨d, ?_, hd⟩
            unfold pascalReplace1Aux
            rw [if_pos hd]
            exact List.mem_cons_self _ _
        | some (e, b) =>
            refine ⟨d.toUpper, ?_, alnum_toUpper hd⟩
            unfold pascalReplace1Aux
            rw [if_pos hd]
            exact List.mem_cons_self _ _
      · have hd' : isAlnumChar d = false := by simpa using hd
        obtain ⟨c₀, hc₀, hal⟩ := h
        have hc₀rest : c₀ ∈ rest := by
          cases hc₀ with
          | head => rw [hal] at hd'; cases hd'
          | tail _ hy => exact hy
        have hex : ∃ c ∈ rest, isAlnumChar c = true := ⟨c₀, hc₀rest, hal⟩
        match st with
        | none =>
            unfold pascalReplace1Aux
            rw [if_neg (by simp [hd'])]
            exact ih (some (d, false)) hex
        | some (e, b) =>
            unfold pascalReplace1Aux
            rw [if_neg (by simp [hd'])]
            exact ih (some (d, true)) hex

theorem lower_implies_alnum {c : Char} (h : ('a' ≤ c && c ≤ 'z') = true) :
    isAlnumChar c = true := by
  simp [isAlnumChar, h]

theorem rep2_all_not_alnum {l : List Char} (h : ∀ c ∈ l, isAlnumChar c = false) :
    ∀ c ∈ pascalReplace2 l, isAlnumChar c = false := by
  match l with
  | [] => intro c hc; cases hc
  | d :: rest =>
      have hd : isAlnumChar d = false := h d (List.mem_cons_self d rest)
      have hlow : ('a' ≤ d && d ≤ 'z') = false := by
        by_contra hcon
        have : ('a' ≤ d && d ≤ 'z') = true := by
          cases hb : ('a' ≤ d && d ≤ 'z') with
          | true => rfl
          | false => exact absurd hb hcon
        rw [lower_implies_alnum this] at hd; cases hd
      intro c hc
      simp only [pascalReplace2] at hc
      rw [if_neg (by simp [hlow])] at hc
      exact h c hc

theorem rep2_exists_alnum {l : List Char} (h : ∃ c ∈ l, isAlnumChar c = true) :
    ∃ c ∈ pascalReplace2 l, isAlnumChar c = true := by
  match l with
  | [] => obtain ⟨c, hc, _⟩ := h; cases hc
  | d :: rest =>
      by_cases hlow : ('a' ≤ d && d ≤ 'z') = true
      · refine ⟨d.toUpper, ?_, alnum_toUpper (lower_implies_alnum hlow)⟩
        simp only [pascalReplace2]
        rw [if_pos hlow]
        exact List.mem_cons_self _ _
      · simp only [pascalReplace2]
        rw [if_neg hlow]
        exact h

theorem toPascalCase_empty_iff (s : String) :
    toPascalCase s = "" ↔ (∀ c ∈ s.data, isAlnumChar c = false) := by
  constructor
  · intro h
    by_contra hcon
    push_neg at hcon
    obtain ⟨c, hc, hal⟩ := hcon
    have hal' : isAlnumChar c = true := by simpa using hal
    have h1 := rep1Aux_exists_alnum s.data none ⟨c, hc, hal'⟩
    have h2 := rep2_exists_alnum h1
    obtain ⟨c', hc', hal''⟩ := h2
    have : c' ∈ pascalReplace3 (pascalReplace2 (pascalReplace1 s.data)) := by
      unfold pascalReplace3
      exact List.mem_filter.mpr ⟨hc', hal''⟩
    rw [show pascalReplace3 (pascalReplace2 (pascalReplace1 s.data)) =
        (toPascalCase s).data from rfl, h] at this
    cases this
  · intro h
    have h1 := rep1Aux_all_not_alnum s.data none h (by intro c b hc; cases hc)
    have h2 := rep2_all_not_alnum h1
    have h3 : pascalReplace3 (pascalReplace2 (pascalReplace1 s.data)) = [] := by
      unfold pascalReplace3
      rw [List.filter_eq_nil_iff]
      intro c hc
      simp [h2 c hc]
    unfold toPascalCase
    rw [show pascalReplace3 (pascalReplace2 (pascalReplace1 s.data)) = [] from h3]

-- ===========================================================================
-- §10  Claim theorems
-- ===========================================================================

/-- C1: for every operation whose query parameters include a cursor-set
name, pagination detection returns the cursor strategy whose `pageParam`
is the first cursor-set name present (iterating the set in declared
order: the set splits as `l₁ ++ name :: l₂` with no earlier member
present), whose `nextPagePath` is the cursor-response-field scan of the
response falling back to `[pageParam]`, and whose `itemsPath` is the
first items-set array property, else the empty path. -/
theorem C1_pagination_cursor_detection (op : ApiOperation) (name : String)
    (l₁ l₂ : List String)
    (hsplit : CURSOR_PARAM_NAMES = l₁ ++ name :: l₂)
    (hnot : ∀ x ∈ l₁, (queryParamNames op).contains x = false)
    (hname : (queryParamNames op).contains name = true) :
    detectPagination op = some
      { strategy := .cursor
        pageParam := name
        nextPagePath := (findNextPagePath op.response.type).getD [name]
        itemsPath := (findItemsPath op.response.type).getD [] } := by
  have hfind : CURSOR_PARAM_NAMES.find?
      (fun n => (queryParamNames op).contains n) = some name := by
    rw [hsplit]; exact find?_append_cons l₁ name l₂ hnot hname
  simp only [detectPagination, hfind]

/-- C1 witness: the operation with query `{cursor}` and response
`{items: array, nextCursor: string}` yields the spec's example result. -/
theorem C1_pagination_cursor_detection_witness :
    detectPagination exCursorOp = some
      { strategy := .cursor, pageParam := "cursor"
        nextPagePath := ["nextCursor"], itemsPath := ["items"] } :=
  (C1_pagination_cursor_detection exCursorOp "cursor" []
    ["after", "before", "page_token", "pageToken", "next_token",
     "nextToken", "starting_after", "startingAfter", "ending_before", "endingBefore"]
    rfl (by decide) (by decide)).trans (by decide)

/-- C2 counterexample: the operation with query `{offset, page}` has an
offset-like parameter, no limit-set parameter and no cursor-set
parameter, yet pagination detection does not return `undefined` (it
falls through to the page-number strategy on the `page` parameter). -/
theorem C2_offset_without_limit_counterexample :
    ((queryParamNames exOffsetPageOp).contains "offset" = true) ∧
    (∀ n ∈ LIMIT_PARAM_NAMES, (queryParamNames exOffsetPageOp).contains n = false) ∧
    (∀ n ∈ CURSOR_PARAM_NAMES, (queryParamNames exOffsetPageOp).contains n = false) ∧
    detectPagination exOffsetPageOp ≠ none := by decide

/-- C2 (amended): for every operation with an offset-like query parameter
but no limit-set, no cursor-set, and additionally no page-number-set
query parameter, pagination detection returns `undefined`. -/
theorem C2_offset_without_limit_amended (op : ApiOperation)
    (hcur : ∀ n ∈ CURSOR_PARAM_NAMES, (queryParamNames op).contains n = false)
    (hpage : ∀ n ∈ PAGE_NUMBER_PARAM_NAMES, (queryParamNames op).contains n = false)
    (hlim : ∀ n ∈ LIMIT_PARAM_NAMES, (queryParamNames op).contains n = false)
    (_hoff : (queryParamNames op).contains "offset" = true ∨
             (queryParamNames op).contains "skip" = true) :
    detectPagination op = none := by
  have hfcur : CURSOR_PARAM_NAMES.find? (fun n => (queryParamNames op).contains n) = none :=
    List.find?_eq_none.mpr (fun x hx => by simpa using hcur x hx)
  have hfpage : PAGE_NUMBER_PARAM_NAMES.find? (fun n => (queryParamNames op).contains n) = none :=
    List.find?_eq_none.mpr (fun x hx => by simpa using hpage x hx)
  have hany : (LIMIT_PARAM_NAMES.any fun n => (queryParamNames op).contains n) = false := by
    rw [List.any_eq_false]; intro x hx; simpa using hlim x hx
  have hafter : detectPagination.detectPaginationAfterOffset op = none := by
    unfold detectPagination.detectPaginationAfterOffset
    simp only [hfpage, hfcur]
    cases op.response.type <;> simp_all
    case object oname props addl descr =>
      cases findNextPagePath (ApiType.object oname props addl descr) <;>
        cases findItemsPath (ApiType.object oname props addl descr) <;> simp
  unfold detectPagination
  simp only [hfcur]
  cases hfo : OFFSET_PARAM_NAMES.find? (fun n => (queryParamNames op).contains n) with
  | none => exact hafter
  | some o => simp only [hany]; simpa using hafter

/-- C2 witness: the operation with query `{offset}` only is detected as
not paginated. -/
theorem C2_offset_without_limit_amended_witness :
    ((queryParamNames exOffsetOnlyOp).contains "offset" = true) ∧
    detectPagination exOffsetOnlyOp = none :=
  ⟨by decide, C2_offset_without_limit_amended exOffsetOnlyOp
    (by decide) (by decide) (by decide) (Or.inl (by decide))⟩

/-- C3: the pagination pass never overwrites caller-provided
`PaginationInfo`, never touches an operation whose method is not GET or
QUERY, and running the pass twice equals running it once. -/
theorem C3_pagination_pass_idempotent :
    (∀ op p, op.pagination = some p → applyPaginationToOp op = op) ∧
    (∀ op : ApiOperation, op.method ≠ .GET → op.method ≠ .QUERY →
       applyPaginationToOp op = op) ∧
    (∀ spec, applyPaginationDetection (applyPaginationDetection spec) =
        applyPaginationDetection spec) := by
  refine ⟨?_, ?_, ?_⟩
  · intro op p h
    unfold applyPaginationToOp
    by_cases hm : op.method ≠ .GET ∧ op.method ≠ .QUERY
    · simp [hm]
    · simp [hm, h]
  · intro op h1 h2
    unfold applyPaginationToOp
    simp [h1, h2]
  · intro spec
    unfold applyPaginationDetection
    simp only [List.map_map]
    congr 1
    exact List.map_congr_left (fun a _ => applyPaginationToOp_idem a)

/-- C3 witness: an already-annotated operation, a POST operation, and a
small spec are all fixed points of the pass. -/
theorem C3_pagination_pass_idempotent_witness :
    applyPaginationToOp exPaginatedOp = exPaginatedOp ∧
    applyPaginationToOp exPostOp = exPostOp ∧
    applyPaginationDetection (applyPaginationDetection exSpec) =
      applyPaginationDetection exSpec :=
  ⟨C3_pagination_pass_idempotent.1 exPaginatedOp _ rfl,
   C3_pagination_pass_idempotent.2.1 exPostOp (by decide) (by decide),
   C3_pagination_pass_idempotent.2.2 exSpec⟩

/-- C4 counterexample: in the registry `{U: object{x: ref B, y: ref A},
A: ref B, B: ref U}` the name `A` participates in the reference cycle
`A → B → U → A`, yet `detectCircularTypes` does not report it (when the
DFS reaches `A`, its successor `B` is already fully visited), so the
detector does not return exactly the set of cycle participants. -/
theorem C4_circular_detection_counterexample :
    ("A" ∈ exUAB.map Prod.fst) ∧ onRefCycle exUAB "A" ∧
    "A" ∉ detectCircularTypes exUAB := by
  refine ⟨by decide, ?_, by decide⟩
  have h1 : refStep exUAB "A" "B" := by decide
  have h2 : refStep exUAB "B" "U" := by decide
  have h3 : refStep exUAB "U" "A" := by decide
  exact Relation.TransGen.head h1 (Relation.TransGen.head h2 (Relation.TransGen.single h3))

/-- C4 (amended): every name reported by `detectCircularTypes`
participates in at least one reference cycle of the registry (the
reported set is sound but may omit participants); the registry
`{A: ref B, B: ref A}` reports both `A` and `B`, and the registry
`{A: ref B, B: ref C, C: primitive}` reports no circular types. -/
theorem C4_circular_detection_amended :
    (∀ (types : List (String × ApiType)) (x : String),
       x ∈ detectCircularTypes types → onRefCycle types x) ∧
    detectCircularTypes exAB = ["A", "B"] ∧
    detectCircularTypes exABC = [] :=
  ⟨fun types x hx => detectCircularTypes_sound types x hx, by decide, by decide⟩

/-- C4 witness: `A` is reported for the two-cycle registry, hence lies on
a cycle. -/
theorem C4_circular_detection_amended_witness : onRefCycle exAB "A" :=
  C4_circular_detection_amended.1 exAB "A" (by decide)

/-- C5: for all object schemas `A` and `B` composed via allOf (with the
duplicate-free property records a JS object guarantees), the merged
required set is the union of the two required sets, the merged
properties resolve key-wise with the later schema winning on a name
conflict, and the first non-empty description is kept. -/
theorem C5_mergeAllOf_union_required (A B : JSchema)
    (hA : ((A.properties.getD []).map Prod.fst).Nodup)
    (hB : ((B.properties.getD []).map Prod.fst).Nodup) :
    (∀ n, n ∈ (mergeAllOf [A, B]).required.getD [] ↔
       (n ∈ A.required.getD [] ∨ n ∈ B.required.getD [])) ∧
    (∀ k, ((mergeAllOf [A, B]).properties.getD []).lookup k =
       (((B.properties.getD []).lookup k).elim ((A.properties.getD []).lookup k) some)) ∧
    ((mergeAllOf [A, B]).description =
       if truthyStr A.description then A.description
       else if truthyStr B.description then B.description else none) := by
  have hm : mergeAllOf [A, B] =
      mergeAllOfStep (mergeAllOfStep
        (.mk (some "object") (some []) (some []) none none none none none none none
          none none none) A) B := rfl
  refine ⟨?_, ?_, ?_⟩
  · intro n
    rw [hm, mergeAllOfStep_required, mergeAllOfStep_required]
    simp [List.mem_append,
      show (JSchema.mk (some "object") (some []) (some []) none none none none none
        none none none none none).required = some [] from rfl]
  · intro k
    rw [hm, mergeAllOfStep_properties, mergeAllOfStep_properties]
    simp only [Option.getD_some]
    rw [objectAssignProps_lookup _ _ hB k]
    have hinner : (objectAssignProps
        ((JSchema.mk (some "object") (some []) (some []) none none none none none none none
          none none none).properties.getD []) (A.properties.getD [])).lookup k =
        (A.properties.getD []).lookup k := by
      rw [objectAssignProps_lookup _ _ hA k]
      cases (A.properties.getD []).lookup k <;> rfl
    rw [hinner]
  · have h1 : (mergeAllOfStep
        (.mk (some "object") (some []) (some []) none none none none none none none none none none)
        A).description = (if truthyStr A.description then A.description else none) := by
      rw [mergeAllOfStep_description]
      have hinitd : (JSchema.mk (some "object") (some []) (some []) none none none none
          none none none none none none).description = none := rfl
      rw [hinitd]
      have hnone : truthyStr (none : Option String) = false := rfl
      rw [hnone]
      cases hA : truthyStr A.description <;> simp [hA]
    rw [hm, mergeAllOfStep_description, h1]
    have hnone : truthyStr (none : Option String) = false := rfl
    cases tA : truthyStr A.description <;> cases tB : truthyStr B.description <;>
      simp [tA, tB, hnone]

/-- C5 witness: on the schemas `{id: string, x: integer}` (required
`[id]`, empty description) and `{x: string}` (required `[x]`,
description "B doc"), the merge unions the required sets, B's `x` wins,
and B's description is the first non-empty one. -/
theorem C5_mergeAllOf_union_required_witness :
    ("id" ∈ (mergeAllOf [exSchemaA, exSchemaB]).required.getD [] ↔
       ("id" ∈ exSchemaA.required.getD [] ∨ "id" ∈ exSchemaB.required.getD [])) ∧
    (((mergeAllOf [exSchemaA, exSchemaB]).properties.getD []).lookup "x" =
       (((exSchemaB.properties.getD []).lookup "x").elim
         ((exSchemaA.properties.getD []).lookup "x") some)) ∧
    ((mergeAllOf [exSchemaA, exSchemaB]).description =
       if truthyStr exSchemaA.description then exSchemaA.description
       else if truthyStr exSchemaB.description then exSchemaB.description else none) := by
  have h := C5_mergeAllOf_union_required exSchemaA exSchemaB (by decide) (by decide)
  exact ⟨h.1 "id", h.2.1 "x", h.2.2⟩

/-- C6 counterexample: the unrecognized GraphQL scalar name `Money` maps
to the `string` primitive, not to `unknown` as the claim states. -/
theorem C6_scalar_mapping_counterexample :
    ("Money" ∉ GRAPHQL_SCALAR_NAMES) ∧
    (mapScalarType "Money").ptype = PrimKind.string ∧
    (mapScalarType "Money").ptype ≠ PrimKind.unknown :=
  ⟨by decide, rfl, by decide⟩

/-- C6 (amended): the GraphQL scalar mapper always lands in
string/number/boolean/unknown and maps every unrecognized scalar name to
the `string` primitive; the Swagger-2 mapper sends every unrecognized
(or missing) type name to `unknown`; and the OpenAPI converter sends a
bare schema with an unrecognized scalar `type` to the `unknown`
primitive. -/
theorem C6_scalar_mapping_amended :
    (∀ n, (mapScalarType n).ptype ∈
       [PrimKind.string, PrimKind.number, PrimKind.boolean, PrimKind.unknown]) ∧
    (∀ n, n ∉ GRAPHQL_SCALAR_NAMES →
       mapScalarType n = { ptype := .string, format := none }) ∧
    (∀ t, t ∉ SWAGGER2_TYPE_NAMES → mapSwagger2Type (some t) = .unknown) ∧
    (mapSwagger2Type none = .unknown) ∧
    (∀ fuel (s : JSchema) t,
       s.stype = some t →
       t ∉ ["string", "number", "integer", "boolean", "array", "object"] →
       s.oneOf = none → s.anyOf = none → s.allOf = none → s.enumVals = none →
       s.properties = none → s.additionalProperties = none → s.nullable = none →
       convertJSchema (fuel + 1) (some s) = .primitive .unknown none s.description) := by
  refine ⟨?_, ?_, ?_, rfl, ?_⟩
  · intro n
    unfold mapScalarType
    split <;> simp
  · intro n hn
    unfold mapScalarType
    split <;> first
      | rfl
      | (exfalso; apply hn; simp_all [GRAPHQL_SCALAR_NAMES])
  · intro t ht
    unfold mapSwagger2Type
    split <;> first
      | rfl
      | (exfalso; apply ht; simp_all [SWAGGER2_TYPE_NAMES])
  · intro fuel s t hst ht h1 h2 h3 h4 h5 h6 h7
    have hne : ∀ x ∈ ["string", "number", "integer", "boolean", "array", "object"],
        t ≠ x := by
      intro x hx he; exact ht (he ▸ hx)
    simp only [convertJSchema, h1, h2, h3, h4, nonEmptyList, hst]
    have harr : (some t == some "array") = false := by simp [hne "array" (by simp)]
    have hobj : (some t == some "object") = false := by simp [hne "object" (by simp)]
    have hstr : (some t == some "string") = false := by simp [hne "string" (by simp)]
    have hnum : (some t == some "number") = false := by simp [hne "number" (by simp)]
    have hint : (some t == some "integer") = false := by simp [hne "integer" (by simp)]
    have hboo : (some t == some "boolean") = false := by simp [hne "boolean" (by simp)]
    simp [hst, harr, hobj, hstr, hnum, hint, hboo, h5, h6, h7, hasObjectShape, truthyAddl]

/-- C6 witness: `Money` maps to `string` in the GraphQL mapper, `file`
maps to `unknown` in the Swagger-2 mapper, and the OpenAPI converter
sends `{type: "csv"}` to the `unknown` primitive. -/
theorem C6_scalar_mapping_amended_witness :
    mapScalarType "Money" = { ptype := .string, format := none } ∧
    mapSwagger2Type (some "file") = .unknown ∧
    convertJSchema 1 (some exCsvSchema) = .primitive .unknown none none :=
  ⟨C6_scalar_mapping_amended.2.1 "Money" (by decide),
   C6_scalar_mapping_amended.2.2.1 "file" (by decide),
   C6_scalar_mapping_amended.2.2.2.2 0 exCsvSchema "csv" rfl (by decide)
     rfl rfl rfl rfl rfl rfl rfl⟩

/-- C7: resource extraction splits the path on `/`, drops empty and
placeholder segments, drops `api`/version segments, and returns the last
remaining segment, falling back first to the last segment that survived
the empty/placeholder drop and only then to the literal `unknown`; on
the spec's examples it returns `posts` and `users`. -/
theorem C7_extract_resource :
    (∀ path : String,
       extractResource path =
         (let segments := (jsSplit '/' path).filter
            (fun s => !(s == "") && !(jsStartsWith s "\x7b"))
          let meaningful := segments.filter (fun s => !isApiOrVersionSegment s)
          match meaningful.getLast?, segments.getLast? with
          | some r, _ => r
          | none, some r => r
          | none, none => "unknown")) ∧
    extractResource "/api/v1/users/\x7buserId\x7d/posts" = "posts" ∧
    extractResource "/users/\x7bid\x7d" = "users" := by
  refine ⟨?_, by decide, by decide⟩
  intro path
  have hgen : ∀ (a b : Option String),
      a.getD (b.getD "unknown") =
        (match a, b with
         | some r, _ => r
         | none, some r => r
         | none, none => "unknown") := by
    intro a b; cases a <;> cases b <;> rfl
  exact hgen _ _

/-- C8: when no parser's predicate accepts the resolved input, dispatch
fails with the `ParseError` message, which embeds the first 80
characters of string input or the first five object keys; when some
predicate accepts, dispatch succeeds. -/
theorem C8_dispatch_error (v : JsValue) :
    ((canParseOpenApi v || canParseSwagger v || canParseGraphql v) = false →
       parseSpecDispatch v = .error (specFormatErrorMessage v) ∧
       (∀ s, v = .str s →
          ∃ pre post, specFormatErrorMessage v = pre ++ jsTake s 80 ++ post) ∧
       (∀ fields, v = .obj fields →
          ∃ pre post, specFormatErrorMessage v =
            pre ++ String.intercalate ", " ((fields.map Prod.fst).take 5) ++ post)) ∧
    ((canParseOpenApi v || canParseSwagger v || canParseGraphql v) = true →
       ∃ id, parseSpecDispatch v = .ok id) := by
  constructor
  · intro h
    simp only [Bool.or_eq_false_iff] at h
    obtain ⟨⟨h1, h2⟩, h3⟩ := h
    refine ⟨by simp [parseSpecDispatch, h1, h2, h3], ?_, ?_⟩
    · intro s hs
      subst hs
      refine ⟨"Unable to detect API specification format." ++ " String starts with: \"",
        "...\"." ++ " " ++
        "Expected an OpenAPI 3.x document (with \"openapi\" field starting with \"3\"), " ++
        "a Swagger 2.0 document (with \"swagger\": \"2.0\"), " ++
        "or a GraphQL schema (introspection JSON with \"__schema\", or SDL string).", ?_⟩
      apply String.ext
      simp [specFormatErrorMessage, formatHint, String.data_append]
    · intro fields hf
      subst hf
      refine ⟨"Unable to detect API specification format." ++ " Object keys: [",
        "]." ++ " " ++
        "Expected an OpenAPI 3.x document (with \"openapi\" field starting with \"3\"), " ++
        "a Swagger 2.0 document (with \"swagger\": \"2.0\"), " ++
        "or a GraphQL schema (introspection JSON with \"__schema\", or SDL string).", ?_⟩
      apply String.ext
      simp [specFormatErrorMessage, formatHint, String.data_append]
  · intro h
    unfold parseSpecDispatch
    cases h1 : canParseOpenApi v with
    | true => exact ⟨.openapi, by simp [h1]⟩
    | false =>
        cases h2 : canParseSwagger v with
        | true => exact ⟨.swagger2, by simp [h1, h2]⟩
        | false =>
            have h3 : canParseGraphql v = true := by
              rw [h1, h2] at h; simpa using h
            exact ⟨.graphql, by simp [h1, h2, h3]⟩

/-- C8 witness: an unrecognized object fails with the key preview, and an
OpenAPI 3.x shaped object dispatches successfully. -/
theorem C8_dispatch_error_witness :
    parseSpecDispatch exUnknownObj = .error (specFormatErrorMessage exUnknownObj) ∧
    (∃ pre post, specFormatErrorMessage exUnknownObj =
       pre ++ String.intercalate ", "
         (([("foo", JsValue.numV 1), ("bar", JsValue.str "x")].map Prod.fst).take 5) ++ post) ∧
    (∃ id, parseSpecDispatch exOpenApiObj = .ok id) := by
  have h1 := (C8_dispatch_error exUnknownObj).1 (by decide)
  exact ⟨h1.1, h1.2.2 _ rfl, (C8_dispatch_error exOpenApiObj).2 (by decide)⟩

/-- C9: the GraphQL parse pass clears the module-level `visitedTypes`
set on entry and exit, so its result never depends on the incoming
module state, the state it leaves behind is empty, and normalizing two
specs sequentially in either order produces, for each spec, exactly the
result of processing that spec alone; the circular-type analyzer's
`visited`/`inStack` working sets are created inside
`detectCircularTypes` and so are local to each invocation by
construction. -/
theorem C9_visited_state_isolation :
    (∀ sch opt σ σ', (graphqlParse sch opt σ).1 = (graphqlParse sch opt σ').1) ∧
    (∀ sch opt σ, (graphqlParse sch opt σ).2 = []) ∧
    (∀ sch1 sch2 opt1 opt2 σ,
       (graphqlParse sch2 opt2 (graphqlParse sch1 opt1 σ).2).1 =
         (graphqlParse sch2 opt2 []).1 ∧
       (graphqlParse sch1 opt1 (graphqlParse sch2 opt2 σ).2).1 =
         (graphqlParse sch1 opt1 []).1) :=
  ⟨fun _ _ _ _ => rfl, fun _ _ _ => rfl, fun _ _ _ _ _ => ⟨rfl, rfl⟩⟩

/-- C10: for every input with at least one alphanumeric character,
`toCamelCase` returns `toPascalCase` of the input with its first
character lower-cased; for every input with none (including the empty
string), `toPascalCase` is empty and `toCamelCase` throws (modelled as
`none`), so callers such as cache-key derivation must never pass such a
resource name. -/
theorem C10_toCamelCase_partiality :
    (∀ s : String, (∃ c ∈ s.data, isAlnumChar c = true) →
       toPascalCase s ≠ "" ∧ toCamelCase s = some (lowerFirstStr (toPascalCase s))) ∧
    (∀ s : String, (∀ c ∈ s.data, isAlnumChar c = false) →
       toPascalCase s = "" ∧ toCamelCase s = none) := by
  constructor
  · intro s hex
    have hne : toPascalCase s ≠ "" := by
      intro he
      rw [toPascalCase_empty_iff] at he
      obtain ⟨c, hc, hal⟩ := hex
      rw [he c hc] at hal; cases hal
    refine ⟨hne, ?_⟩
    cases hp : (toPascalCase s).data with
    | nil => exact absurd (String.ext (hp.trans rfl)) hne
    | cons c r =>
        unfold toCamelCase lowerFirstStr
        rw [hp]
  · intro s hall
    have hp : toPascalCase s = "" := (toPascalCase_empty_iff s).mpr hall
    refine ⟨hp, ?_⟩
    unfold toCamelCase
    rw [hp]

/-- C10 witness: `api_key` camel-cases to `apiKey`, while the
all-symbol input `!!!` pascal-cases to the empty string and makes
`toCamelCase` throw. -/
theorem C10_toCamelCase_partiality_witness :
    toCamelCase "api_key" = some "apiKey" ∧
    toPascalCase "!!!" = "" ∧ toCamelCase "!!!" = none :=
  ⟨((C10_toCamelCase_partiality.1 "api_key" (by decide)).2).trans (by decide),
   (C10_toCamelCase_partiality.2 "!!!" (by decide)).1,
   (C10_toCamelCase_partiality.2 "!!!" (by decide)).2⟩
